import Mathlib

/-!
Shallow embedding of `easybuild/scripts/prep_for_release.py` (the release-preparation script of EasyBuild) and proofs about its checks.

Conventions of the embedding:
* strings are `List Char`; file contents, tag names and documents are the
  raw character lists the Python code reads;
* machine-independent Python values map to `Nat`, `Bool`, `List`;
* a Python function that can call `error(...)` (which exits) returns an
  `Option`, with `none` standing for the error exit;
* `distutils.version.LooseVersion` applied to the dotted numeric strings this
  script feeds it is embedded as the list of its numeric components, compared
  with Python 2 list comparison (`lvCmp`).
-/

/-- Character-class test for the regex class `[0-9]` (also the Python `\d` class on
ASCII input). -/
def isDigitChar (c : Char) : Bool := 48 ≤ c.toNat && c.toNat ≤ 57

/-- Character-class test for the Python class `\s`: the six ASCII whitespace
characters space, tab, newline, carriage return, vertical tab, form feed. -/
def isSpaceChar (c : Char) : Bool :=
  c == ' ' || c == '\t' || c == '\n' || c == '\r' || c == '\x0b' || c == '\x0c'

/-- Character-class test for the regex class `[A-Z]`. -/
def isUpperChar (c : Char) : Bool := 65 ≤ c.toNat && c.toNat ≤ 90

/-- Character-class test for the regex class `[a-z]`. -/
def isLowerChar (c : Char) : Bool := 97 ≤ c.toNat && c.toNat ≤ 122

/-- A non-multiline `$` anchor also matches just before one newline that ends
the string; dropping that newline lets the rest of a pattern be stated on the
remaining characters. -/
def stripTrailingNewline (l : List Char) : List Char :=
  if l.getLast? = some '\n' then l.dropLast else l

/-- Numeric components of a version string drawn from `[0-9.]+`, exactly as
`distutils.version.LooseVersion.parse` produces them on such input: maximal
digit runs become numbers (`acc` carries the run being read), dots only
separate and empty components are dropped. -/
def versionComponents : List Char → Option Nat → List Nat
  | [], none => []
  | [], some v => [v]
  | c :: rest, acc =>
    if c = '.' then
      match acc with
      | none => versionComponents rest none
      | some v => v :: versionComponents rest none
    else
      match acc with
      | none => versionComponents rest (some (c.toNat - 48))
      | some v => versionComponents rest (some (v * 10 + (c.toNat - 48)))

/-- `LooseVersion(s)` for the dotted numeric strings of this script: the list
of numeric components. -/
def parseVersion (s : String) : List Nat := versionComponents s.data none

/-- Python 2 `cmp` on the component lists of two LooseVersions (lists of ints):
lexicographic, a strict prefix comparing less than the longer list. This is
the comparison behind `==`, `>`, `max` and the version ordering used by the
script. -/
def lvCmp : List Nat → List Nat → Ordering
  | [], [] => Ordering.eq
  | [], _ :: _ => Ordering.lt
  | _ :: _, [] => Ordering.gt
  | x :: xs, y :: ys =>
    if x < y then Ordering.lt
    else if y < x then Ordering.gt
    else lvCmp xs ys

/-- Python `a == b` on LooseVersions. -/
def lvEq (a b : List Nat) : Bool := lvCmp a b == Ordering.eq

/-- Python `a < b` on LooseVersions. -/
def lvLt (a b : List Nat) : Bool := lvCmp a b == Ordering.lt

/-- Python `max(a, b)`: scans the arguments and replaces the current best `a`
by `b` exactly when `b > a`. -/
def pyMax (a b : List Nat) : List Nat :=
  if lvCmp b a == Ordering.gt then b else a

/-- The version the main script passes into the release-notes check:
`check_release_notes(easybuild_home, max(easybuild_version, last_git_version_tag))`. -/
def release_notes_arg (easybuild_version last_git_version_tag : List Nat) : List Nat :=
  pyMax easybuild_version last_git_version_tag

/-- `vertag_re.match t` for `vertag_re = ^v([0-9]+\.[0-9]+)$`, returning the
LooseVersion components of capture group 1 when the tag matches: a literal
`v`, one or more digits, a literal dot, one or more digits, end of string
(`$` also accepted just before one trailing newline). -/
def vertagMatch (t : List Char) : Option (List Nat) :=
  match stripTrailingNewline t with
  | 'v' :: rest =>
    let d1 := rest.takeWhile isDigitChar
    match rest.dropWhile isDigitChar with
    | '.' :: r2 =>
      if !d1.isEmpty && !r2.isEmpty && r2.all isDigitChar then
        some (versionComponents rest none)
      else none
    | _ => none
  | _ => none

/-- `git_version_tags`: the LooseVersions of the tags that match
`^v([0-9]+\.[0-9]+)$`, in tag-list order. -/
def git_version_tags (tags : List (List Char)) : List (List Nat) :=
  tags.filterMap vertagMatch

/-- `get_last_git_version_tag`: element `[-1]` of `git_version_tags` — the
last match in tag-list order; `none` models the `error("No git version tags
set?")` exit when no tag matches. -/
def get_last_git_version_tag (tags : List (List Char)) : Option (List Nat) :=
  (git_version_tags tags).getLast?

/-- Modelled from the spec: equality of two component lists "after
zero-padding the shorter component sequence to the length of the longer one", the
comparison semantics the spec ascribes to ComparableVersion equality. -/
def zeroPadEqSpec : List Nat → List Nat → Bool
  | [], ys => ys.all (fun y => y == 0)
  | x :: xs, [] => x == 0 && zeroPadEqSpec xs []
  | x :: xs, y :: ys => x == y && zeroPadEqSpec xs ys

/-- Consume a literal character from the input; `none` when it is absent. -/
def litChar (c : Char) : List Char → Option (List Char)
  | x :: rest => if x = c then some rest else none
  | [] => none

/-- Consume one character of a class (a regex class such as `[A-Z]` or `\s`). -/
def oneChar (p : Char → Bool) : List Char → Option (List Char)
  | x :: rest => if p x then some rest else none
  | [] => none

/-- Consume one or more characters of a class (`+`, greedy). In every place
this embedding uses it, the character that follows in the pattern can never
belong to the class, so greedy matching agrees with backtracking. -/
def manyOneChar (p : Char → Bool) : List Char → Option (List Char)
  | x :: rest => if p x then some (rest.dropWhile p) else none
  | [] => none

/-- Consume a literal string from the input. -/
def dropLiteral : List Char → List Char → Option (List Char)
  | [], l => some l
  | p :: ps, c :: cs => if c = p then dropLiteral ps cs else none
  | _ :: _, [] => none

/-- A multiline `$` anchor: end of input, or just before a newline. -/
def endAnchor (l : List Char) : Bool :=
  match l with
  | [] => true
  | c :: _ => c == '\n'

/-- `re.search` of a pattern anchored `^...$` under `re.M`: the matcher `m`
is tried at the start of the input and after every newline (the only
positions where `^` can hold). -/
def searchLinesFrom (m : List Char → Bool) : List Char → Bool
  | [] => false
  | c :: rest => (c == '\n' && m rest) || searchLinesFrom m rest

/-- Multiline search: try the `^`-anchored matcher at every line start. -/
def searchLines (m : List Char → Bool) (doc : List Char) : Bool :=
  m doc || searchLinesFrom m doc

/-! ## License headers (`check_license_headers`) -/

/-- After a `#`, match the remainder `\s+Copyright\s+\d*` of
`license_header_re`: at least one whitespace character, the literal
`Copyright`, at least one more whitespace character (`\d*` always succeeds).
Greedy `\s+` agrees with backtracking because `C` and a digit are not
whitespace. -/
def headerAfterHash : List Char → Bool
  | [] => false
  | c :: rest =>
    if isSpaceChar c then
      match dropLiteral "Copyright".data (rest.dropWhile isSpaceChar) with
      | some (c2 :: _) => isSpaceChar c2
      | some [] => false
      | none => false
    else false

/-- `license_header_re.search(txt)` for
`license_header_re = [#\n]*#\s+Copyright\s+\d*` (unanchored search): a match
exists somewhere iff some `#` is followed by whitespace, `Copyright` and more
whitespace — the leading `[#\n]*` may always match empty at the final `#` of
a run, and `\d*` may match empty. -/
def header_search : List Char → Bool
  | [] => false
  | c :: rest => (c == '#' && headerAfterHash rest) || header_search rest

/-- `filename_re` core, after the `$`-newline normalisation:
`^((?!\.).)*\.(py|sh)$`. Each character of the starred group must be neither
a dot (the lookahead) nor a newline (regex `.`), so the group must stop at
the first dot of the name, which the following `\.` consumes; the extension
`py` or `sh` must then end the input. -/
def filenameCore : List Char → Bool
  | [] => false
  | c :: rest =>
    if c = '.' then rest == ['p', 'y'] || rest == ['s', 'h']
    else if c = '\n' then false
    else filenameCore rest

/-- `filename_re.match(basefn)`: the script comments this as "only code
files, i.e. that do not start with a dot, and end in either .py or .sh";
the regex actually excludes a dot at every position before the extension. -/
def filename_matches (l : List Char) : Bool :=
  filenameCore (stripTrailingNewline l)

/-- Modelled from the spec: file eligibility as the spec words it — "name
does not start with a hidden-file marker, and ends with a recognized source
extension" (`.py` or `.sh`). Stated for comparison with `filename_matches`,
the regex the code uses. -/
def eligibleSpec (l : List Char) : Bool :=
  (match l with
   | '.' :: _ => false
   | _ => true)
  && (List.isSuffixOf ".py".data l || List.isSuffixOf ".sh".data l)

/-- `dirname_re.match(basefn)` for `dirname_re = ^((?!\.).)*$`: every
character is neither a dot nor a newline (`$` again also accepted just
before one trailing newline). -/
def dirname_matches (l : List Char) : Bool :=
  (stripTrailingNewline l).all (fun c => !(c == '.' || c == '\n'))

/-- A directory listing as `os.listdir` exposes it to the walker: `nil` ends
a listing, `file name content rest` and `dir name entries rest` are its
entries in iteration order. -/
inductive Fs where
  | nil : Fs
  | file : List Char → List Char → Fs → Fs
  | dir : List Char → Fs → Fs → Fs

/-- `os.path.join(os.path.abspath(home), d)`; `home` is kept as given (the
script always starts from an absolute `easybuild_home`). -/
def pathJoin (home d : List Char) : List Char := home ++ '/' :: d

/-- `"Could not find license header in %s" % fullfn`, the warning written to
stderr for an eligible file whose contents lack the header. -/
def licenseWarning (fullfn : List Char) : List Char :=
  "Could not find license header in ".data ++ fullfn

/-- The loop body of `check_license_headers(home, ...)` over one directory
listing, carrying the local variable `ok` and the warnings written so far.
Two details are transcribed exactly as the Python source has them:
* for a subdirectory whose basename matches `dirname_re`, the source runs
  `ok = check_license_headers(fullfn, ...)` — `ok` is ASSIGNED the recursive
  result, overwriting whatever value it had accumulated;
* for a matching file whose contents lack the header, the source warns and
  then evaluates `ok - False`, a subtraction expression whose value is
  discarded — `ok` is left unchanged. -/
def clh (hdr fil dirp : List Char → Bool) (path : List Char) (ok : Bool)
    (ws : List (List Char)) : Fs → Bool × List (List Char)
  | Fs.nil => (ok, ws)
  | Fs.file n c rest =>
    if fil n then
      if hdr c then clh hdr fil dirp path ok ws rest
      else clh hdr fil dirp path ok (ws ++ [licenseWarning (pathJoin path n)]) rest
    else clh hdr fil dirp path ok ws rest
  | Fs.dir n es rest =>
    if dirp n then
      let r := clh hdr fil dirp (pathJoin path n) true [] es
      clh hdr fil dirp path r.1 (ws ++ r.2) rest
    else clh hdr fil dirp path ok ws rest

/-- `check_license_headers(home, license_header_re, filename_re, dirname_re)`
on the listing of `home`: `ok` starts `True`, warnings go to stderr; returns
the final `ok` and the warnings in emission order. -/
def check_license_headers (hdr fil dirp : List Char → Bool) (home : List Char)
    (listing : Fs) : Bool × List (List Char) :=
  clh hdr fil dirp home true [] listing

/-! ## Release notes (`check_release_notes`) -/

/-- Consume the version string interpolated (UNESCAPED) into
`"^v%s\s\(...\)$" % easybuild_version`: each `.` of the version becomes the
regex metacharacter `.` (any character except newline); every other
character of a dotted numeric version is a regex literal. -/
def verPat : List Char → List Char → Option (List Char)
  | [], l => some l
  | vc :: vrest, l =>
    match (if vc = '.' then oneChar (fun c => !(c == '\n')) l
           else litChar vc l) with
    | some r => verPat vrest r
    | none => none

/-- One attempt of `ver_re` at a line start, for
`ver_re = ^v<version>\s\([A-Z][a-z]+\s[0-9]+[a-z]+\s[0-9]+\)$` (re.M):
literal `v`, the interpolated version, one whitespace, `(`, a capitalised
month word, one whitespace, day digits, an ordinal-suffix word, one
whitespace, year digits, `)`, end of line. -/
def notesMatchAt (ver l : List Char) : Bool :=
  match (litChar 'v' l).bind (verPat ver) |>.bind (oneChar isSpaceChar)
      |>.bind (litChar '(') |>.bind (oneChar isUpperChar)
      |>.bind (manyOneChar isLowerChar) |>.bind (oneChar isSpaceChar)
      |>.bind (manyOneChar isDigitChar) |>.bind (manyOneChar isLowerChar)
      |>.bind (oneChar isSpaceChar) |>.bind (manyOneChar isDigitChar)
      |>.bind (litChar ')') with
  | some r => endAnchor r
  | none => false

/-- `ver_re.search(releasenotes)` under `re.M`. -/
def notesSearch (ver releasenotes : List Char) : Bool :=
  searchLines (notesMatchAt ver) releasenotes

/-- `"Could not find an entry for version %s in %s." % (easybuild_version, fn)`
with `fn = "RELEASE_NOTES"`. -/
def notesWarning (ver : List Char) : List Char :=
  "Could not find an entry for version ".data ++ ver
    ++ " in RELEASE_NOTES.".data

/-- `check_release_notes(home, easybuild_version)` once the notes file has
been read: search the document for the entry line of the version; return the
Bool of the check and the warnings written to stderr. -/
def check_release_notes (ver releasenotes : List Char) : Bool × List (List Char) :=
  if notesSearch ver releasenotes then (true, [])
  else (false, [notesWarning ver])

/-! ## Clean master branch (`check_clean_master_branch`) -/

/-- The literal line `master_re = ^# On branch master$` (re.M) looks for. -/
def masterLine : List Char := "# On branch master".data

/-- The literal line
`clean_re = ^nothing to commit \(working directory clean\)$` (re.M) looks
for (the escaped parentheses are literal). -/
def cleanLine : List Char := "nothing to commit (working directory clean)".data

/-- One attempt of a fully-literal `^...$` (re.M) pattern at a line start. -/
def lineMatchAt (pat l : List Char) : Bool :=
  match dropLiteral pat l with
  | some r => endAnchor r
  | none => false

/-- The two warnings `check_clean_master_branch` can write to stderr, as
tags: `notOnMaster` for the make-sure-you-are-on-the-master-branch message,
`notClean` for the work-present-not-committed-yet message. -/
inductive StatusWarning where
  | notOnMaster : StatusWarning
  | notClean : StatusWarning
deriving DecidableEq

/-- `check_clean_master_branch(home)` once `git status` has produced
`git_status`: `ok` starts `True`; the branch sub-condition and the
cleanliness sub-condition are tested one after the other, each writing its
own warning and setting `ok = False` when it fails; returns the final `ok`
and the warnings in emission order. -/
def check_clean_master_branch (git_status : List Char) : Bool × List StatusWarning :=
  let ok0 := true
  let (ok1, ws1) :=
    if !(searchLines (lineMatchAt masterLine) git_status) then
      (false, [StatusWarning.notOnMaster])
    else (ok0, [])
  let (ok2, ws2) :=
    if !(searchLines (lineMatchAt cleanLine) git_status) then
      (false, ws1 ++ [StatusWarning.notClean])
    else (ok1, ws1)
  (ok2, ws2)

/-! ## Exit status (main) -/

/-- `"ERROR: %s\n"` line `error(...)` writes for the final check failure. -/
def notReadyError : List Char :=
  "ERROR: One or multiple checks have failed, EasyBuild is not ready to be released!\n".data

/-- The final step of the script: `if not all(all_checks): error(...)`. `error`
writes its diagnostic to stderr and calls `sys.exit(1)`; otherwise the
script falls off the end with exit status 0. Returns (exit status, stderr
lines of this step). -/
def mainFinish (all_checks : List Bool) : Nat × List (List Char) :=
  if all_checks.all (fun b => b) then (0, []) else (1, [notReadyError])

/-- Plain substring test, used to state that a document nowhere contains a
literal piece of text. -/
def hasSubstring (pat : List Char) : List Char → Bool
  | [] => (dropLiteral pat []).isSome
  | c :: rest => (dropLiteral pat (c :: rest)).isSome || hasSubstring pat rest

/-- A file content that carries the license header pattern. -/
def headerTxt : List Char := "##\n# Copyright 2009-2012 People\n#\ncode\n".data

/-- The directory tree of the spec example for the license scan:
`[a.py (has header), b.py (no header), c.txt (no header, ineligible),
.hidden.py (ineligible), sub/.git/d.py (subtree excluded)]`. -/
def exampleTree : Fs :=
  Fs.file "a.py".data headerTxt
    (Fs.file "b.py".data "no header here\n".data
      (Fs.file "c.txt".data "nothing\n".data
        (Fs.file ".hidden.py".data "nothing\n".data
          (Fs.dir "sub".data
            (Fs.dir ".git".data (Fs.file "d.py".data "nothing\n".data Fs.nil) Fs.nil)
            Fs.nil))))

/-! ## Helper lemmas -/

theorem lvCmp_self : ∀ a : List Nat, lvCmp a a = Ordering.eq
  | [] => rfl
  | x :: xs => by simp [lvCmp, lvCmp_self xs]

theorem lvCmp_swap : ∀ a b : List Nat, lvCmp b a = (lvCmp a b).swap
  | [], [] => rfl
  | [], _ :: _ => rfl
  | _ :: _, [] => rfl
  | x :: xs, y :: ys => by
    simp only [lvCmp]
    rcases Nat.lt_trichotomy x y with h | h | h
    · simp [h, Nat.lt_asymm h, Ordering.swap]
    · subst h
      simp [Nat.lt_irrefl, lvCmp_swap xs ys]
    · simp [h, Nat.lt_asymm h, Ordering.swap]

theorem lvCmp_gt_iff (a b : List Nat) :
    lvCmp a b = Ordering.gt ↔ lvCmp b a = Ordering.lt := by
  rw [lvCmp_swap b a]
  cases lvCmp b a <;> simp [Ordering.swap]

theorem lvCmp_eq_iff : ∀ a b : List Nat, lvCmp a b = Ordering.eq ↔ a = b
  | [], [] => by simp [lvCmp]
  | [], _ :: _ => by simp [lvCmp]
  | _ :: _, [] => by simp [lvCmp]
  | x :: xs, y :: ys => by
    simp only [lvCmp]
    rcases Nat.lt_trichotomy x y with h | h | h
    · simp [h, Nat.ne_of_lt h]
    · subst h
      simp [Nat.lt_irrefl, lvCmp_eq_iff xs ys]
    · simp [h, Nat.lt_asymm h, (Nat.ne_of_lt h).symm]

theorem stripTrailingNewline_of_no_newline {l : List Char}
    (h : l.all (fun c => !(c == '\n')) = true) : stripTrailingNewline l = l := by
  unfold stripTrailingNewline
  split
  · rename_i hl
    exfalso
    rcases List.mem_getLast?_eq_getLast (l := l) (x := '\n') (Option.mem_def.mpr hl)
      with ⟨hne, hv⟩
    have hm : '\n' ∈ l := by
      rw [hv]
      exact List.getLast_mem hne
    have := List.all_eq_true.mp h _ hm
    simp at this
  · rfl

theorem filenameCore_iff : ∀ l : List Char,
    l.all (fun c => !(c == '\n')) = true →
    (filenameCore l = true ↔
      ∃ stem : List Char, stem.all (fun c => !(c == '.')) = true ∧
        (l = stem ++ ['.', 'p', 'y'] ∨ l = stem ++ ['.', 's', 'h'])) := by
  intro l
  induction l with
  | nil =>
    intro _
    simp only [filenameCore, Bool.false_eq_true, false_iff]
    rintro ⟨stem, _, h | h⟩ <;> simp at h
  | cons c rest ih =>
    intro hall
    rw [List.all_cons, Bool.and_eq_true] at hall
    obtain ⟨hc, hrest⟩ := hall
    by_cases hdot : c = '.'
    · subst hdot
      simp only [filenameCore, if_pos rfl]
      constructor
      · intro h
        have h2 : rest = ['p', 'y'] ∨ rest = ['s', 'h'] := by simpa using h
        rcases h2 with h | h
        · exact ⟨[], rfl, Or.inl (by rw [h]; rfl)⟩
        · exact ⟨[], rfl, Or.inr (by rw [h]; rfl)⟩
      · rintro ⟨stem, hstem, h | h⟩
        · cases stem with
          | nil =>
            simp only [List.nil_append, List.cons.injEq] at h
            simp [h.2]
          | cons c2 stem2 =>
            simp only [List.cons_append, List.cons.injEq] at h
            rw [List.all_cons, Bool.and_eq_true] at hstem
            rw [h.1] at hstem
            simp at hstem
        · cases stem with
          | nil =>
            simp only [List.nil_append, List.cons.injEq] at h
            simp [h.2]
          | cons c2 stem2 =>
            simp only [List.cons_append, List.cons.injEq] at h
            rw [List.all_cons, Bool.and_eq_true] at hstem
            rw [h.1] at hstem
            simp at hstem
    · have hnl : ¬ c = '\n' := by simpa using hc
      have hstep : filenameCore (c :: rest) = filenameCore rest := by
        simp only [filenameCore, if_neg hdot, if_neg hnl]
      rw [hstep, ih hrest]
      constructor
      · rintro ⟨stem, hstem, h | h⟩
        · exact ⟨c :: stem, by simp [List.all_cons, hstem, hdot], Or.inl (by rw [h]; rfl)⟩
        · exact ⟨c :: stem, by simp [List.all_cons, hstem, hdot], Or.inr (by rw [h]; rfl)⟩
      · rintro ⟨stem, hstem, h | h⟩
        · cases stem with
          | nil =>
            simp only [List.nil_append, List.cons.injEq] at h
            exact absurd h.1 hdot
          | cons c2 stem2 =>
            simp only [List.cons_append, List.cons.injEq] at h
            rw [List.all_cons, Bool.and_eq_true] at hstem
            exact ⟨stem2, hstem.2, Or.inl h.2⟩
        · cases stem with
          | nil =>
            simp only [List.nil_append, List.cons.injEq] at h
            exact absurd h.1 hdot
          | cons c2 stem2 =>
            simp only [List.cons_append, List.cons.injEq] at h
            rw [List.all_cons, Bool.and_eq_true] at hstem
            exact ⟨stem2, hstem.2, Or.inr h.2⟩

theorem clh_fst_true (hdr fil dirp : List Char → Bool) :
    ∀ (t : Fs) (path : List Char) (ws : List (List Char)),
      (clh hdr fil dirp path true ws t).fst = true := by
  intro t
  induction t with
  | nil =>
    intro path ws
    rfl
  | file n c rest ih =>
    intro path ws
    simp only [clh]
    split_ifs <;> exact ih _ _
  | dir n es rest ihes ihrest =>
    intro path ws
    simp only [clh]
    split_ifs with h
    · rw [ihes (pathJoin path n) []]
      exact ihrest _ _
    · exact ihrest _ _

/-! ## The claims -/

/-- C1: the spec says `check_license_headers` returns true iff every eligible
file in the subtree contains the header pattern, and must return false on the
example tree where `b.py` lacks the header. The code does not: the
missing-header branch evaluates the discarded expression `ok - False` instead
of assigning `ok = False`, so the function returns `True` for EVERY tree and
every choice of patterns (first conjunct), and on the example tree it returns
`True` while still warning exactly about `b.py` — and about none of the
ineligible `c.txt`, `.hidden.py`, or anything under the excluded `.git`
(second conjunct). -/
theorem check_license_headers_result_bug :
    (∀ (hdr fil dirp : List Char → Bool) (path : List Char) (t : Fs),
        (check_license_headers hdr fil dirp path t).fst = true) ∧
      check_license_headers header_search filename_matches dirname_matches
          "home".data exampleTree
        = (true, [licenseWarning "home/b.py".data]) :=
  ⟨fun hdr fil dirp path t => clh_fst_true hdr fil dirp t path [], by decide⟩

/-- C2 counterexample: `get_last_git_version_tag` does NOT return the maximum
ComparableVersion among the matching tags for every tag list: on the
(lexicographically git-sorted) tag list `[v2.10, v2.9]` it returns `2.9`,
which is strictly below the candidate `2.10`. -/
theorem get_last_git_version_tag_not_max :
    get_last_git_version_tag ["v2.10".data, "v2.9".data] = some (parseVersion "2.9") ∧
      lvLt (parseVersion "2.9") (parseVersion "2.10") = true := by
  decide

/-- C2 (amended): `get_last_git_version_tag` returns the ComparableVersion of
the LAST tag in list order among those matching exactly `v<digits>.<digits>`
(so always one of the candidates, first conjunct); on the example tag list
`[v1.0, v1.0rc1, release-2.0, v2.1]` the candidates are exactly
`{1.0, 2.1}` and the result is `2.1` — the maximum only because the example
list happens to list it last. -/
theorem get_last_git_version_tag_last_match :
    (∀ (tags : List (List Char)) (v : List Nat),
        get_last_git_version_tag tags = some v → v ∈ git_version_tags tags) ∧
      git_version_tags ["v1.0".data, "v1.0rc1".data, "release-2.0".data, "v2.1".data]
          = [parseVersion "1.0", parseVersion "2.1"] ∧
        get_last_git_version_tag
            ["v1.0".data, "v1.0rc1".data, "release-2.0".data, "v2.1".data]
          = some (parseVersion "2.1") := by
  refine ⟨?_, by decide, by decide⟩
  intro tags v h
  rcases List.mem_getLast?_eq_getLast (l := git_version_tags tags) (x := v)
      (Option.mem_def.mpr h) with ⟨hne, hv⟩
  rw [hv]
  exact List.getLast_mem hne

theorem ordering_beq_iff (a b : Ordering) : (a == b) = true ↔ a = b := by
  cases a <;> cases b <;> decide

/-- C3 counterexample: ComparableVersion equality is NOT
equality-after-zero-padding: `1.0` and `1.0.0` are zero-pad equal, yet
`LooseVersion("1.0") == LooseVersion("1.0.0")` is false — the claim fails at
its own example `parse("1.0") == parse("1.0.0")`. -/
theorem looseVersion_not_zero_padded :
    lvEq (parseVersion "1.0") (parseVersion "1.0.0") = false ∧
      zeroPadEqSpec (parseVersion "1.0") (parseVersion "1.0.0") = true := by
  decide

/-- C3 (amended): two parsed ComparableVersions compare equal iff their
numeric component sequences are identical; shorter sequences are NOT
zero-padded — a strict prefix compares strictly less, so
`parse("1.0") < parse("1.0.0")`. -/
theorem looseVersion_eq_iff_same_components :
    (∀ a b : List Nat, lvEq a b = true ↔ a = b) ∧
      lvLt (parseVersion "1.0") (parseVersion "1.0.0") = true := by
  refine ⟨fun a b => ?_, by decide⟩
  unfold lvEq
  rw [ordering_beq_iff]
  exact lvCmp_eq_iff a b

/-- C4 counterexample: file eligibility in the code is not "no leading dot
and a recognized extension": `a.b.py` has no leading dot and ends in `.py`
yet `filename_re` rejects it, while `.py` starts with a dot yet
`filename_re` accepts it. -/
theorem filename_re_vs_spec_eligibility :
    eligibleSpec ['a', '.', 'b', '.', 'p', 'y'] = true ∧
      filename_matches ['a', '.', 'b', '.', 'p', 'y'] = false ∧
      eligibleSpec ['.', 'p', 'y'] = false ∧
      filename_matches ['.', 'p', 'y'] = true := by
  decide

/-- C4 (amended): for newline-free names, a file is eligible exactly when the
name is a stem followed by `.py` or `.sh` where the stem contains no dot at
all — the dot before the extension is the only dot allowed anywhere, and the
stem may be empty; the ordinary case `setup.py` is eligible. -/
theorem filename_matches_characterisation :
    (∀ l : List Char, l.all (fun c => !(c == '\n')) = true →
        (filename_matches l = true ↔
          ∃ stem : List Char, stem.all (fun c => !(c == '.')) = true ∧
            (l = stem ++ ['.', 'p', 'y'] ∨ l = stem ++ ['.', 's', 'h']))) ∧
      filename_matches "setup.py".data = true := by
  refine ⟨?_, by decide⟩
  intro l h
  rw [filename_matches, stripTrailingNewline_of_no_newline h]
  exact filenameCore_iff l h

/-- C5: the release gate passes `max(easybuild_version, last_git_version_tag)`
into the release-notes check: for every pair of versions the argument passed
is one of the two and neither version compares greater than it under
ComparableVersion ordering. -/
theorem release_notes_arg_is_max :
    ∀ ebv tagv : List Nat,
      (release_notes_arg ebv tagv = ebv ∨ release_notes_arg ebv tagv = tagv) ∧
        lvCmp ebv (release_notes_arg ebv tagv) ≠ Ordering.gt ∧
        lvCmp tagv (release_notes_arg ebv tagv) ≠ Ordering.gt := by
  intro ebv tagv
  unfold release_notes_arg pyMax
  split_ifs with h
  · have hgt : lvCmp tagv ebv = Ordering.gt := (ordering_beq_iff _ _).mp h
    refine ⟨Or.inr rfl, ?_, ?_⟩
    · have h2 : lvCmp ebv tagv = Ordering.lt := (lvCmp_gt_iff tagv ebv).mp hgt
      simp [h2]
    · simp [lvCmp_self]
  · have hne : lvCmp tagv ebv ≠ Ordering.gt :=
      fun hc => h ((ordering_beq_iff _ _).mpr hc)
    exact ⟨Or.inl rfl, by simp [lvCmp_self], hne⟩

/-- C6: `check_release_notes` accepts a document containing the exact-shape
entry line `v2.3 (March 14th 2024)` for version `2.3`, and rejects — with a
warning — a document whose only entry `v2.3 (March 2024)` misses the day. -/
theorem check_release_notes_date_format :
    check_release_notes "2.3".data "v2.3 (March 14th 2024)".data = (true, []) ∧
      check_release_notes "2.3".data "v2.3 (March 2024)".data
        = (false, [notesWarning "2.3".data]) := by
  decide

/-- C7: the process exits 0 iff all four check booleans are true; otherwise
it exits 1 and the not-ready diagnostic is written to the error stream. -/
theorem mainFinish_exit_iff :
    ∀ c1 c2 c3 c4 : Bool,
      ((mainFinish [c1, c2, c3, c4]).fst = 0 ↔
        c1 = true ∧ c2 = true ∧ c3 = true ∧ c4 = true) ∧
      ((mainFinish [c1, c2, c3, c4]).fst = 0 ∧ (mainFinish [c1, c2, c3, c4]).snd = [] ∨
        (mainFinish [c1, c2, c3, c4]).fst = 1 ∧
          (mainFinish [c1, c2, c3, c4]).snd = [notReadyError]) := by
  decide

/-- C8: `check_clean_master_branch` tests its two sub-conditions
independently — the result is true iff both the master-branch line and the
working-directory-clean line are found, and each warning appears iff its own
sub-condition fails (first conjunct); on a status block asserting branch
`feature-x` with a clean working tree it returns false with only the branch
warning, the cleanliness sub-condition succeeding observably (second
conjunct). -/
theorem check_clean_master_branch_sub_conditions :
    (∀ s : List Char,
        ((check_clean_master_branch s).fst = true ↔
          searchLines (lineMatchAt masterLine) s = true ∧
            searchLines (lineMatchAt cleanLine) s = true) ∧
          (StatusWarning.notOnMaster ∈ (check_clean_master_branch s).snd ↔
            searchLines (lineMatchAt masterLine) s = false) ∧
          (StatusWarning.notClean ∈ (check_clean_master_branch s).snd ↔
            searchLines (lineMatchAt cleanLine) s = false)) ∧
      check_clean_master_branch
          "# On branch feature-x\nnothing to commit (working directory clean)".data
        = (false, [StatusWarning.notOnMaster]) := by
  refine ⟨?_, by decide⟩
  intro s
  unfold check_clean_master_branch
  cases h1 : searchLines (lineMatchAt masterLine) s <;>
    cases h2 : searchLines (lineMatchAt cleanLine) s <;>
      simp [h1, h2]

/-- C9: ComparableVersion ordering is component-wise numeric, not lexical:
after any common prefix, the version with the numerically larger component
compares greater whatever follows (first conjunct); in particular
`parse("2.10") > parse("2.9")` (second conjunct). -/
theorem looseVersion_numeric_not_lexical :
    (∀ (pre : List Nat) (x d : Nat) (xs ys : List Nat),
        lvCmp (pre ++ (x + d + 1) :: xs) (pre ++ x :: ys) = Ordering.gt) ∧
      lvCmp (parseVersion "2.10") (parseVersion "2.9") = Ordering.gt := by
  refine ⟨?_, by decide⟩
  intro pre x d xs ys
  induction pre with
  | nil =>
    simp only [List.nil_append, lvCmp]
    rw [if_neg (by omega), if_pos (by omega)]
  | cons p ps ih =>
    simp only [List.cons_append, lvCmp, Nat.lt_irrefl, if_false]
    exact ih

/-- C10: the target version is interpolated into `ver_re` without escaping
its dot, so for version `2.3` a document whose only line is
`v2x3 (March 14th 2024)` — which nowhere contains the text `v2.3` — is
accepted by `check_release_notes`. -/
theorem check_release_notes_dot_unescaped :
    (check_release_notes "2.3".data "v2x3 (March 14th 2024)".data).fst = true ∧
      hasSubstring "v2.3".data "v2x3 (March 14th 2024)".data = false := by
  decide
